import Mathlib

/-
Verification of lib/python/Components/config.py (Enigma2 OpenVision
configuration model).

Shallow embedding conventions:
  * Python functions become Lean functions translated from the source.
  * Python dicts become association lists with unique keys kept in
    insertion order; `del` removes the (unique) matching key, assignment
    updates it in place or appends.
  * Python ints are unbounded, so they are modelled by Lean `Int`
    (or `Nat` where the source value is a length or index).
  * Code paths that raise an exception are modelled with `Option`,
    `none` meaning "raises".
  * Notifier callbacks (`self.changed()` etc.) do not affect the element
    state itself; where a claim is about whether notifiers fire, the
    embedding returns a Bool flag alongside the new state.
-/

namespace ConfigSpec

/-! ### Action key codes (config.py lines 16-41) -/

def ACTIONKEY_LEFT : Nat := 0
def ACTIONKEY_RIGHT : Nat := 1
def ACTIONKEY_SELECT : Nat := 2
def ACTIONKEY_DELETE : Nat := 3
def ACTIONKEY_BACKSPACE : Nat := 4
def ACTIONKEY_FIRST : Nat := 5
def ACTIONKEY_LAST : Nat := 6
def ACTIONKEY_TOGGLE : Nat := 7
def ACTIONKEY_ASCII : Nat := 8
def ACTIONKEY_TIMEOUT : Nat := 9
def ACTIONKEY_0 : Nat := 12
def ACTIONKEY_9 : Nat := 21

/-- key in ACTIONKEY_NUMBERS, i.e. key in range(12, 22). -/
def isNumberKey (key : Nat) : Bool := 12 ≤ key && key ≤ 21

/-! ### Python `str` on integers

Model of the builtin `str()` applied to an `int`: an optional minus sign
followed by the decimal digits without leading zeros (`str(0) = "0"`).
The digit list is produced with an explicit fuel argument (the number
itself) so that the definition is structurally recursive and reduces
inside the kernel. -/

def digitChar (d : Nat) : Char := Char.ofNat (48 + d)

def natDigitsAux : Nat → Nat → List Char
  | 0, _ => []
  | fuel + 1, n => if n = 0 then [] else natDigitsAux fuel (n / 10) ++ [digitChar (n % 10)]

/-- Python str(n) for a nonnegative integer n. -/
def pyStrNat (n : Nat) : String := if n = 0 then "0" else ⟨natDigitsAux n n⟩

/-- Python str(i) for an arbitrary int i. -/
def pyStr (i : Int) : String := if i < 0 then "-" ++ pyStrNat i.natAbs else pyStrNat i.toNat

/-- Python len(str(i)). -/
def lenStr (i : Int) : Nat := (pyStr i).length

/-! ### ConfigClock increment / decrement (config.py lines 1136-1161)

A ConfigClock is a ConfigSequence with limits [(0, 23), (0, 59)] whose
`_value` list holds `[hour, minute]`; the two cells are named fields here.
`self.changed()` only fires notifiers and does not touch the value. -/

structure ClockState where
  hour : Int
  minute : Int
deriving DecidableEq, Repr

/-- ConfigClock.increment (config.py lines 1141-1150). -/
def ClockState.increment (s : ClockState) : ClockState :=
  if s.minute = 59 then
    if s.hour < 23 then { hour := s.hour + 1, minute := 0 }
    else { hour := 0, minute := 0 }
  else { s with minute := s.minute + 1 }

/-- ConfigClock.decrement (config.py lines 1152-1161). -/
def ClockState.decrement (s : ClockState) : ClockState :=
  if s.minute = 0 then
    if s.hour > 0 then { hour := s.hour - 1, minute := 59 }
    else { hour := 23, minute := 59 }
  else { s with minute := s.minute - 1 }

/-- increment applied n times. -/
def ClockState.incN : Nat → ClockState → ClockState
  | 0, s => s
  | n + 1, s => ClockState.incN n s.increment

/-! ### Python string helpers -/

def pySpace (c : Char) : Bool :=
  c = ' ' || c = '\t' || c = '\n' || c = '\r' || c = '\x0b' || c = '\x0c'

def pyStripChars (l : List Char) : List Char :=
  ((l.dropWhile pySpace).reverse.dropWhile pySpace).reverse

/-- Python str.strip() with no argument (whitespace at both ends removed). -/
def pyStrip (s : String) : String := ⟨pyStripChars s.data⟩

def charDigitVal (c : Char) : Option Nat :=
  if c.isDigit then some (c.toNat - 48) else none

/-- The digit values of a char list: some ds iff every char is an ASCII
    digit. -/
def mapDigitVals : List Char → Option (List Nat)
  | [] => some []
  | c :: rest =>
      match charDigitVal c, mapDigitVals rest with
      | some d, some ds => some (d :: ds)
      | _, _ => none

/-- Decimal digit-string value: some n iff the (nonempty) char list is all
    ASCII digits; used to model int() on the digit part. -/
def parseNatChars (l : List Char) : Option Nat :=
  match mapDigitVals l with
  | some ds => if ds.isEmpty then none else some (ds.foldl (fun a d => a * 10 + d) 0)
  | none => none

/-- Python int(s) on an already stripped char list: optional sign then
    decimal digits; anything else raises ValueError (none). (Underscore
    digit grouping, which stringification never produces, is not modelled.) -/
def pyIntChars : List Char → Option Int
  | [] => none
  | c :: rest =>
      if c = '-' then (parseNatChars rest).map (fun n => -(n : Int))
      else if c = '+' then (parseNatChars rest).map (fun n => (n : Int))
      else (parseNatChars (c :: rest)).map (fun n => (n : Int))

/-- Python int(s): surrounding whitespace is ignored. -/
def pyInt (s : String) : Option Int := pyIntChars (pyStripChars s.data)

/-- Python s.split(sep) for a single-character sep (all the ConfigSequence
    variants use ".", ":" or ","): always returns at least one piece. -/
def splitOnChar (sep : Char) : List Char → List (List Char)
  | [] => [[]]
  | c :: rest =>
      match splitOnChar sep rest with
      | [] => [[]]
      | p :: ps => if c = sep then [] :: p :: ps else (c :: p) :: ps

/-- Python sep.join(parts) for a single-character sep. -/
def joinChars (sep : Char) : List (List Char) → List Char
  | [] => []
  | [p] => p
  | p :: rest => p ++ sep :: joinChars sep rest

/-- Python line.split("=", 1): split at the first "=", none if absent. -/
def splitFirstEq : List Char → Option (List Char × List Char)
  | [] => none
  | c :: rest =>
      if c = '=' then some ([], rest)
      else (splitFirstEq rest).map (fun p => (c :: p.1, p.2))

/-- Python string < (lexicographic on code points). -/
def pyCharsLt : List Char → List Char → Bool
  | [], [] => false
  | [], _ :: _ => true
  | _ :: _, [] => false
  | a :: as, b :: bs =>
      if a.toNat < b.toNat then true
      else if b.toNat < a.toNat then false
      else pyCharsLt as bs

/-- Python string <= (a <= b iff not b < a). -/
def pyLeChars (a b : List Char) : Bool := ! pyCharsLt b a

/-- Python str.lower() (ASCII case folding; all config keys are ASCII). -/
def pyLower (s : String) : String := ⟨s.data.map Char.toLower⟩

/-- Python str.isdigit(): nonempty and all digits (ASCII range here). -/
def pyIsDigit (s : String) : Bool := ! s.data.isEmpty && s.data.all Char.isDigit

/-! ### ConfigBoolean encode/decode (config.py lines 402-427) -/

def trueValues : List String := ["1", "enable", "on", "true", "yes"]

/-- Python str(b) for a bool. -/
def pyStrBool (b : Bool) : String := if b then "True" else "False"

/-- ConfigBoolean.fromstring (config.py lines 418-419); the argument is the
    saved string, so the str() in the source is the identity on it. -/
def ConfigBoolean.fromstring (value : String) : Bool :=
  trueValues.contains (pyLower value)

/-- ConfigBoolean.tostring (config.py lines 421-422): the short-circuit
    `value and str(value).lower() in self.trueValues` on a bool. -/
def ConfigBoolean.tostring (value : Bool) : String :=
  if value && trueValues.contains (pyLower (pyStrBool value)) then "True" else "False"

/-! ### ConfigSequence encode/decode (config.py lines 1037-1045) -/

/-- ConfigSequence.tostring with saveSingle = str
    (config.py lines 1037-1041): seperator.join([str(x) for x in val]). -/
def ConfigSequence.tostring (sep : Char) (val : List Int) : String :=
  ⟨joinChars sep (val.map (fun x => (pyStr x).data))⟩

/-- ConfigSequence.fromstring (config.py lines 1043-1045): int() over the
    separator-split pieces, missing trailing fields filled from each field's
    minimum bound; none models the ValueError int() raises on a bad piece. -/
def intPieces : List (List Char) → Option (List Int)
  | [] => some []
  | p :: rest =>
      match pyIntChars (pyStripChars p), intPieces rest with
      | some x, some xs => some (x :: xs)
      | _, _ => none

def ConfigSequence.fromstring (sep : Char) (limits : List (Int × Int)) (value : String) :
    Option (List Int) :=
  (intPieces (splitOnChar sep value.data)).map
    (fun ret => ret ++ (limits.drop ret.length).map (fun x => x.1))

/-! ### The string tree produced by unpickle / getSavedValue

A node in the saved-value string tree is either a plain string (a leaf
setting) or a dict from key to subtree.  Python dicts are modelled as
association lists in insertion order with unique keys; the dict type is a
mutual inductive (rather than a nested List) so that all functions below
are structurally recursive and reduce inside the kernel. -/

mutual
inductive StrTree where
  | leaf (s : String)
  | node (entries : StrEntries)
inductive StrEntries where
  | nil
  | cons (key : String) (val : StrTree) (rest : StrEntries)
end

/-- Dict lookup (d.get(key) / key in d). -/
def StrEntries.lookup : StrEntries → String → Option StrTree
  | .nil, _ => none
  | .cons k v rest, key => if k = key then some v else rest.lookup key

/-- Dict assignment d[key] = v: update the existing entry in place, else
    append at the end (Python dicts preserve insertion order). -/
def StrEntries.aset : StrEntries → String → StrTree → StrEntries
  | .nil, key, v => .cons key v .nil
  | .cons k w rest, key, v =>
      if k = key then .cons k v rest else .cons k w (rest.aset key v)

/-- Dict deletion del d[key] (no-op when the key is absent; getSavedValue
    guards the del with `elif key in res`). -/
def StrEntries.adel : StrEntries → String → StrEntries
  | .nil, _ => .nil
  | .cons k w rest, key => if k = key then rest.adel key else .cons k w (rest.adel key)

def StrEntries.keys : StrEntries → List String
  | .nil => []
  | .cons k _ rest => k :: rest.keys

/-! ### Config.pickle_this (config.py lines 2085-2098)

pickle_this sorts each dict level with
  sorted(topickle.items(), key=lambda x: str(x[0]) if x[0].isdigit() else x[0].lower())
and walks the sorted items, emitting "name=value\n" for leaves and recursing
into dicts.  Python's sorted() is a stable sort; it is modelled by a stable
insertion sort.  For structural recursion the embedding renders every entry
first (rendering an entry does not depend on its position) and then sorts
the (key, rendered text) pairs by the same key function, which yields the
same output string as sorting first and rendering in order. -/

/-- The sort key of pickle_this: str(x[0]) if x[0].isdigit() else x[0].lower(). -/
def pickleSortKey (k : String) : String := if pyIsDigit k then k else pyLower k

/-- Comparison used by the stable sort: Python string <= on the sort keys. -/
def entryLe (a b : String × String) : Bool :=
  pyLeChars (pickleSortKey a.1).data (pickleSortKey b.1).data

/-- Stable insertion: x goes after every already-placed y with y <= x. -/
def sortInsert (x : String × String) : List (String × String) → List (String × String)
  | [] => [x]
  | y :: ys => if entryLe y x then y :: sortInsert x ys else x :: y :: ys

/-- Stable sort of the rendered (key, text) pairs: inserting left to right
    keeps entries with equal sort keys in their original (insertion) order,
    matching Python's stable sorted(). -/
def sortPairs (l : List (String × String)) : List (String × String) :=
  l.foldl (fun acc x => sortInsert x acc) []

def joinPairs (l : List (String × String)) : String :=
  String.join (l.map (fun p => p.2))

mutual
/-- Rendering of one sorted item of pickle_this: a leaf contributes the line
    prefix.key=value\n (result += [name, "=", str(val), "\n"]), a dict is
    recursed into with the extended prefix. -/
def pickleOne (pfx key : String) : StrTree → String
  | .leaf s => pfx ++ "." ++ key ++ "=" ++ s ++ "\n"
  | .node entries => joinPairs (sortPairs (renderEntries (pfx ++ "." ++ key) entries))
/-- Renders every entry of a dict level (order-independent per entry). -/
def renderEntries (pfx : String) : StrEntries → List (String × String)
  | .nil => []
  | .cons k v rest => (k, pickleOne pfx k v) :: renderEntries pfx rest
end

/-- Config.pickle_this (config.py lines 2085-2093) on one dict level. -/
def pickle_this (pfx : String) (entries : StrEntries) : String :=
  joinPairs (sortPairs (renderEntries pfx entries))

/-! ### The live tree: ConfigSubsection / Config (config.py lines 2019-2127)

For the persistence claims only the persisted-form slots matter, so a live
tree node is either an element, carrying its saved_value (dynamically typed
in Python, so it can hold a string or - if unpickle cached a dict under the
element's key - a whole subtree), or a subsection with its attached items
(content.items) and its stored-value cache (content.stored_values). -/

mutual
inductive ConfigNode where
  | element (saved_value : Option StrTree)
  | subsection (stored_values : StrEntries) (items : NodeEntries)
inductive NodeEntries where
  | nil
  | cons (key : String) (val : ConfigNode) (rest : NodeEntries)
end

def NodeEntries.keys : NodeEntries → List String
  | .nil => []
  | .cons k _ rest => k :: rest.keys

def NodeEntries.append : NodeEntries → NodeEntries → NodeEntries
  | .nil, r => r
  | .cons k v rest, r => .cons k v (rest.append r)

mutual
/-- The saved_value property read: an element yields its slot (None means
    "do not persist"), a subsection yields ConfigSubsection.getSavedValue
    (config.py lines 2050-2058). -/
def ConfigNode.savedValueOpt : ConfigNode → Option StrTree
  | .element sv => sv
  | .subsection stored items => some (.node (mergeItems stored items))
/-- The loop of ConfigSubsection.getSavedValue: res starts from the cached
    stored values; each attached item with a saved value overwrites its key,
    and each item without one deletes its key from res. -/
def mergeItems : StrEntries → NodeEntries → StrEntries
  | stored, .nil => stored
  | stored, .cons key val rest =>
      match ConfigNode.savedValueOpt val with
      | some sv => mergeItems (stored.aset key sv) rest
      | none => mergeItems (stored.adel key) rest
end

mutual
/-- The saved_value property write: for an element a plain slot assignment;
    for a subsection ConfigSubsection.setSavedValue (config.py lines
    2060-2066) stores the dict and pushes the matching entries down to the
    attached items.  Assigning a plain string to a subsection raises in
    Python (dict(string)); that is the none case. -/
def ConfigNode.setSavedValue : ConfigNode → StrTree → Option ConfigNode
  | .element _, v => some (.element (some v))
  | .subsection _ items, .node values =>
      (setSavedItems values items).map (fun items2 => .subsection values items2)
  | .subsection _ _, .leaf _ => none
/-- The loop of ConfigSubsection.setSavedValue over the attached items. -/
def setSavedItems (values : StrEntries) : NodeEntries → Option NodeEntries
  | .nil => some .nil
  | .cons key val rest =>
      let val2 := match values.lookup key with
        | some v => ConfigNode.setSavedValue val v
        | none => some val
      match val2, setSavedItems values rest with
      | some v2, some r2 => some (.cons key v2 r2)
      | _, _ => none
end

/-! ### Config.unpickle (config.py lines 2100-2127), base_file = True

(The base_file = False branch additionally eval()s the dotted name against
the live tree; only the initial-load branch is modelled, which is the one
the persistence claims are about.) -/

/-- The walk `for n in names[1:-1]: base = base.setdefault(n, {})` followed
    by `base[names[-1]] = val`.  Walking into a leaf means Python called
    setdefault on (or assigned into) a str, which raises: none. -/
def insertPath (base : StrEntries) : List String → String → String → Option StrEntries
  | [], final, v => some (base.aset final (.leaf v))
  | n :: rest, final, v =>
      match base.lookup n with
      | some (.node m) => (insertPath m rest final v).map (fun m2 => base.aset n (.node m2))
      | some (.leaf _) => none
      | none => (insertPath .nil rest final v).map (fun m2 => base.aset n (.node m2))

/-- One iteration of the unpickle line loop: comment/blank lines and lines
    without "=" are skipped; otherwise the value is stripped and stored at
    the dotted path (the first path component is never looked at). -/
def unpickleLine (configbase : StrEntries) (line : String) : Option StrEntries :=
  if line = "" || line.data.head? == some '#' then some configbase
  else
    match splitFirstEq line.data with
    | none => some configbase
    | some (nameChars, valChars) =>
        let val : String := pyStrip ⟨valChars⟩
        let names : List String := (splitOnChar '.' nameChars).map (fun l => (⟨l⟩ : String))
        insertPath configbase (names.drop 1).dropLast (names.getLastD "") val

/-- Config.unpickle: build the string tree from the lines, then run
    self.setSavedValue(tree["config"]) on the root. -/
def Config.unpickle (root : ConfigNode) (lines : List String) : Option ConfigNode :=
  (lines.foldlM unpickleLine .nil).bind
    (fun configbase => root.setSavedValue (.node configbase))

/-- Config.pickle (config.py lines 2095-2098): flatten self.saved_value
    under the fixed top-level prefix "config". -/
def Config.pickle : ConfigNode → String
  | .subsection stored items => pickle_this "config" (mergeItems stored items)
  | .element _ => ""

/-- The freshly built root of config.py lines 2179-2180:
    config = Config(); config.misc = ConfigSubsection().  Attaching misc
    finds no cached stored value, so no load happens. -/
def configRoot : ConfigNode :=
  .subsection .nil (.cons "misc" (.subsection .nil .nil) .nil)

/-! ### ConfigElement persisted-form behaviour (config.py lines 100-157)

A generic element over its decoded value type: value, default, the
persisted string slot, the two save-control flags and the codec pair. -/

structure Elem (α : Type) where
  value : α
  default : α
  saved_value : Option String
  save_disabled : Bool
  save_forced : Bool
  tostring : α → String
  fromstring : String → α

/-- ConfigElement.load (config.py lines 115-116). -/
def Elem.load {α : Type} (e : Elem α) : Elem α :=
  { e with value := match e.saved_value with
      | none => e.default
      | some sv => e.fromstring sv }

/-- ConfigElement.save (config.py lines 118-124); the
    callNotifiersOnSaveAndCancel branch only fires notifiers and does not
    touch the element state. -/
def Elem.save {α : Type} [DecidableEq α] (e : Elem α) : Elem α :=
  { e with saved_value :=
      if e.save_disabled = true ∨ (e.value = e.default ∧ e.save_forced = false)
        then none else some (e.tostring e.value) }

/-! ### Containers with the late-binding stored-value cache

The three container shapes, restricted to element children (which is what
the late-binding claim is about: a child whose cached persisted form is a
plain string).  Cache entries holding whole subtrees belong to container
children and are covered by the ConfigNode model above. -/

def listLookup {β : Type} : List (String × β) → String → Option β
  | [], _ => none
  | (k, v) :: rest, key => if k = key then some v else listLookup rest key

def listAset {β : Type} : List (String × β) → String → β → List (String × β)
  | [], key, v => [(key, v)]
  | (k, w) :: rest, key, v =>
      if k = key then (k, v) :: rest else (k, w) :: listAset rest key v

/-- ConfigSubList (config.py lines 1924-1964): integer-indexed children,
    stored_values keyed by the stringified index. -/
structure SubList (α : Type) where
  items : List (Elem α)
  stored_values : List (String × String)

/-- ConfigSubList.append (config.py lines 1956-1961): i = str(len(self));
    list.append; a cached stored value under i is pushed into the new item
    which is then loaded. -/
def SubList.append {α : Type} (c : SubList α) (item : Elem α) : SubList α :=
  let i := pyStrNat c.items.length
  let item2 := match listLookup c.stored_values i with
    | some v => Elem.load { item with saved_value := some v }
    | none => item
  { c with items := c.items ++ [item2] }

/-- ConfigSubDict (config.py lines 1970-2006): children keyed by str(key). -/
structure SubDict (α : Type) where
  items : List (String × Elem α)
  stored_values : List (String × String)

/-- ConfigSubDict.__setitem__ (config.py lines 1975-1979). -/
def SubDict.setitem {α : Type} (c : SubDict α) (key : String) (item : Elem α) : SubDict α :=
  let item2 := match listLookup c.stored_values key with
    | some v => Elem.load { item with saved_value := some v }
    | none => item
  { c with items := listAset c.items key item2 }

/-- ConfigSubsection with element children (config.py lines 2019-2040). -/
structure SubsectionE (α : Type) where
  items : List (String × Elem α)
  stored_values : List (String × String)

/-- ConfigSubsection.__setattr__ (config.py lines 2030-2040): register the
    child in content.items; if content.stored_values has an entry for the
    name, assign it to the child's saved_value and immediately load the
    child. -/
def SubsectionE.setattr {α : Type} (c : SubsectionE α) (name : String) (child : Elem α) :
    SubsectionE α :=
  let child2 := match listLookup c.stored_values name with
    | some x => Elem.load { child with saved_value := some x }
    | none => child
  { c with items := listAset c.items name child2 }

/-! ### ConfigSequence edit state machine (config.py lines 913-1007) -/

structure SeqState where
  value : List Int
  marked_pos : Int
deriving DecidableEq, Repr

/-- One field of the clamp loop of ConfigSequence.validate: the field is
    raised to its lower and then lowered to its upper bound. -/
def clamp1 (lim : Int × Int) (v : Int) : Int :=
  let v2 := if v < lim.1 then lim.1 else v
  if v2 > lim.2 then lim.2 else v2

/-- The clamp loop of validate (config.py lines 933-940).  (Python raises
    IndexError when _value is longer than limits; extra fields are left
    unchanged here and all theorems below keep the lengths equal.) -/
def validateFields : List (Int × Int) → List Int → List Int
  | _, [] => []
  | [], v :: rest => v :: validateFields [] rest
  | lim :: ls, v :: rest => clamp1 lim v :: validateFields ls rest

/-- max_pos of validate: one len(str(limits[num][1])) summand per entry of
    _value (config.py lines 930-934). -/
def maxPosOf (limits : List (Int × Int)) (value : List Int) : Int :=
  (List.range value.length).foldl
    (fun acc num => acc + (lenStr (limits.getD num (0, 0)).2 : Int)) 0

/-- ConfigSequence.validate (config.py lines 930-947); the endNotifier list
    only notifies and is not part of the state here. -/
def ConfigSequence.validate (limits : List (Int × Int)) (s : SeqState) : SeqState :=
  let value := validateFields limits s.value
  let max_pos := maxPosOf limits s.value
  let mp := if s.marked_pos ≥ max_pos then max_pos - 1 else s.marked_pos
  let mp2 := if mp < 0 then 0 else mp
  { value := value, marked_pos := mp2 }

/-- ConfigSequence.validatePos (config.py lines 949-954). -/
def ConfigSequence.validatePos (limits : List (Int × Int)) (s : SeqState) : SeqState :=
  let mp := if s.marked_pos < 0 then 0 else s.marked_pos
  let total_len : Int := (limits.map (fun x => (lenStr x.2 : Int))).sum
  let mp2 := if mp ≥ total_len then total_len - 1 else mp
  { s with marked_pos := mp2 }

/-- The digit carried by a numeric action key, or by an ASCII action whose
    externally read getPrevAsciiCode() value is in 48..57; none when the
    handler returns without doing anything. -/
def digitOf (ascii : Int) (key : Nat) : Option Int :=
  if key = ACTIONKEY_ASCII then
    if ascii < 48 ∨ ascii > 57 then none else some (ascii - 48)
  else if isNumberKey key then some ((key : Int) - 12)
  else none

/-- The block-finding loop of ConfigSequence.handleKey (config.py lines
    987-1000): one iteration per block; pos grows by block_len[blocknumber]
    (sic), block_len_total records the running positions, and blocknumber
    stops advancing at the block owning marked_pos.  Returns (blocknumber,
    block_len_total). -/
def findBlock (block_len : List Int) (marked_pos : Int) : Nat × List Int :=
  let st := block_len.foldl
    (fun (st : Int × Nat × List Int) _ =>
      let pos := st.1 + block_len.getD st.2.1 0
      let blt := st.2.2 ++ [pos]
      if pos - 1 ≥ marked_pos then (pos, st.2.1, blt) else (pos, st.2.1 + 1, blt))
    (0, 0, [0])
  (st.2.1, st.2.2)

/-- ConfigSequence.handleKey (config.py lines 961-1007); the external
    getPrevAsciiCode() read of the ASCII branch is passed in as ascii.
    The exponents of the digit-replacement arithmetic are Int subtractions
    truncated at zero by toNat; for any cursor column inside the block they
    are the exact Python values (a negative exponent would make Python
    compute floats, which needs a cursor outside the rendered text). -/
def ConfigSequence.handleKey (limits : List (Int × Int)) (ascii : Int) (key : Nat)
    (s : SeqState) : SeqState :=
  if key = ACTIONKEY_FIRST then
    ConfigSequence.validatePos limits { s with marked_pos := 0 }
  else if key = ACTIONKEY_LEFT then
    ConfigSequence.validatePos limits { s with marked_pos := s.marked_pos - 1 }
  else if key = ACTIONKEY_RIGHT then
    ConfigSequence.validatePos limits { s with marked_pos := s.marked_pos + 1 }
  else if key = ACTIONKEY_LAST then
    ConfigSequence.validatePos limits { s with marked_pos := maxPosOf limits s.value - 1 }
  else if isNumberKey key = true ∨ key = ACTIONKEY_ASCII then
    match digitOf ascii key with
    | none => s
    | some number =>
        let block_len := limits.map (fun x => (lenStr x.2 : Int))
        let fb := findBlock block_len s.marked_pos
        let blocknumber := fb.1
        let number_len : Int := lenStr (limits.getD blocknumber (0, 0)).2
        let posinblock : Int := s.marked_pos - fb.2.getD blocknumber 0
        let oldvalue : Int := (s.value.getD blocknumber 0).natAbs
        let olddec := oldvalue % (10 : Int) ^ (number_len - posinblock).toNat
          - oldvalue % (10 : Int) ^ (number_len - posinblock - 1).toNat
        let newvalue :=
          oldvalue - olddec + (10 : Int) ^ (number_len - posinblock - 1).toNat * number
        ConfigSequence.validate limits
          { value := s.value.set blocknumber newvalue, marked_pos := s.marked_pos + 1 }
  else s

/-! ### ConfigIP block editing (config.py lines 1297-1347) -/

def ip_limits : List (Int × Int) := [(0, 255), (0, 255), (0, 255), (0, 255)]

/-- self.block_len = [len(str(x[1])) for x in self.limits]. -/
def ipBlockLen : List Nat := ip_limits.map (fun x => lenStr x.2)

structure IPState where
  value : List Int
  marked_pos : Int
  marked_block : Nat
  overwrite : Bool
  auto_jump : Bool
deriving DecidableEq, Repr

def IPState.seq (s : IPState) : SeqState := { value := s.value, marked_pos := s.marked_pos }

def IPState.withSeq (s : IPState) (q : SeqState) : IPState :=
  { s with value := q.value, marked_pos := q.marked_pos }

/-- The ACTIONKEY_RIGHT branch of ConfigIP.handleKey (config.py lines
    1313-1316): advance the marked block with clamping, enter overwrite. -/
def ConfigIP.moveRight (s : IPState) : IPState :=
  { s with
    marked_block :=
      if s.marked_block < ip_limits.length - 1 then s.marked_block + 1 else s.marked_block,
    overwrite := true }

/-- The common tail of a digit press (config.py lines 1344-1347): advance to
    the next block when the block's rendered width is full, then validate. -/
def ConfigIP.afterDigit (s : IPState) : IPState :=
  let s2 := if lenStr (s.value.getD s.marked_block 0) ≥ ipBlockLen.getD s.marked_block 0
    then ConfigIP.moveRight s else s
  s2.withSeq (ConfigSequence.validate ip_limits s2.seq)

/-- A digit press in overwrite mode (config.py lines 1332-1334 plus the
    common tail): the field becomes the single digit. -/
def ConfigIP.digitOverwrite (s : IPState) (number : Int) : IPState :=
  ConfigIP.afterDigit
    { s with value := s.value.set s.marked_block number, overwrite := false }

/-- ConfigIP.handleKey (config.py lines 1308-1347).  The auto-jump branch of
    the source re-dispatches self.handleKey(RIGHT) and then
    self.handleKey(key); moveRight sets the overwrite flag, so the
    re-dispatched digit necessarily takes the overwrite branch, which is
    inlined here as digitOverwrite (moveRight s) to keep the definition
    structurally recursive. -/
def ConfigIP.handleKey (ascii : Int) (key : Nat) (s : IPState) : IPState :=
  if key = ACTIONKEY_LEFT then
    { s with
      marked_block := if s.marked_block > 0 then s.marked_block - 1 else s.marked_block,
      overwrite := true }
  else if key = ACTIONKEY_RIGHT then ConfigIP.moveRight s
  else if key = ACTIONKEY_FIRST then { s with marked_block := 0, overwrite := true }
  else if key = ACTIONKEY_LAST then
    { s with marked_block := ip_limits.length - 1, overwrite := true }
  else if isNumberKey key = true ∨ key = ACTIONKEY_ASCII then
    match digitOf ascii key with
    | none => s
    | some number =>
        if s.overwrite then ConfigIP.digitOverwrite s number
        else
          let newvalue := s.value.getD s.marked_block 0 * 10 + number
          if s.auto_jump = true ∧ newvalue > (ip_limits.getD s.marked_block (0, 0)).2
              ∧ s.marked_block < ip_limits.length - 1 then
            ConfigIP.digitOverwrite (ConfigIP.moveRight s) number
          else ConfigIP.afterDigit { s with value := s.value.set s.marked_block newvalue }
  else s

/-! ### ConfigSelection (config.py lines 264-344 and 742-811)

Python choice identities can be of any type with a one-to-one mapping to
their string form (see the comment block at config.py lines 714-741); the
values appearing in practice are ints and strings, modelled by PyVal.
The list-type choicesList with plain (untupled) entries is modelled; a
(value, description) tuple contributes only its value to every function
used here. -/

inductive PyVal where
  | int (i : Int)
  | str (s : String)
deriving DecidableEq, Repr

/-- Python str(v). -/
def PyVal.pyStrOf : PyVal → String
  | .int i => pyStr i
  | .str s => s

/-- Python == on the values (note that 1 == "1" is False in Python). -/
def PyVal.pyEq : PyVal → PyVal → Bool
  | .int a, .int b => a == b
  | .str a, .str b => a == b
  | _, _ => false

/-- choicesList.__list__ / __iter__ for the list type (config.py lines
    280-295): the raw choice values, or [""] when the list is empty. -/
def choicesListValues (choices : List PyVal) : List PyVal :=
  if choices.isEmpty then [.str ""] else choices

/-- choicesList.__len__ (config.py lines 297-298): len(self.choices) or 1. -/
def choicesListLen (choices : List PyVal) : Nat :=
  if choices.length = 0 then 1 else choices.length

/-- choicesList.__getitem__ (config.py lines 300-308) for the list type; an
    out-of-range index raises IndexError in Python and is never reached by
    the callers modelled here. -/
def choicesListGet (choices : List PyVal) (index : Nat) : PyVal :=
  if index = 0 ∧ choices.isEmpty then .str ""
  else choices.getD index (.str "")

/-- choicesList.index on Python 3 (config.py lines 310-317):
    self.__list__().index(value), where list.index compares with raw ==;
    none models the ValueError raised when no entry equals the value. -/
def choicesListIndex (choices : List PyVal) (value : PyVal) : Option Nat :=
  (choicesListValues choices).findIdx? (fun x => x.pyEq value)

structure Selection where
  choices : List PyVal
  default : PyVal
  curValue : PyVal
deriving DecidableEq, Repr

/-- ConfigSelection.setValue (config.py lines 762-768): adopt the canonical
    choice whose str() equals str(value), else fall back to the default;
    none models the uncaught ValueError from choicesList.index.  The
    self._descr reset and self.changed() do not affect this state. -/
def Selection.setValue (s : Selection) (value : PyVal) : Option Selection :=
  if ((choicesListValues s.choices).map PyVal.pyStrOf).contains value.pyStrOf then
    (choicesListIndex s.choices value).map
      (fun i => { s with curValue := choicesListGet s.choices i })
  else some { s with curValue := s.default }

/-- ConfigSelection.handleKey (config.py lines 800-811); the Bool records
    whether a value assignment (hence an immediate notification) happened.
    With fewer than two effective choices the whole body is skipped. -/
def Selection.handleKey (s : Selection) (key : Nat) : Option (Selection × Bool) :=
  let nchoices := choicesListLen s.choices
  if nchoices > 1 then
    (choicesListIndex s.choices s.curValue).bind (fun i =>
      if key = ACTIONKEY_LEFT then
        (s.setValue (choicesListGet s.choices ((i + nchoices - 1) % nchoices))).map
          (fun s2 => (s2, true))
      else if key = ACTIONKEY_RIGHT then
        (s.setValue (choicesListGet s.choices ((i + 1) % nchoices))).map
          (fun s2 => (s2, true))
      else if key = ACTIONKEY_FIRST then
        (s.setValue (choicesListGet s.choices 0)).map (fun s2 => (s2, true))
      else if key = ACTIONKEY_LAST then
        (s.setValue (choicesListGet s.choices (nchoices - 1))).map (fun s2 => (s2, true))
      else some (s, false))
  else some (s, false)

/-- Well-formed limits: every field bound has min less than or equal max. -/
def limitsWF (limits : List (Int × Int)) : Prop := ∀ lim ∈ limits, lim.1 ≤ lim.2

/-- Every field of the value lies inside the matching declared bound. -/
def inBounds (limits : List (Int × Int)) (value : List Int) : Prop :=
  List.Forall₂ (fun lim x => lim.1 ≤ x ∧ x ≤ lim.2) limits value

/-! ## Theorems -/

theorem ClockState.incN_add (a b : Nat) (s : ClockState) :
    ClockState.incN (a + b) s = ClockState.incN b (ClockState.incN a s) := by
  induction a generalizing s with
  | zero => simp [ClockState.incN]
  | succ a ih =>
      have : a + 1 + b = (a + b) + 1 := by omega
      rw [this]
      simp only [ClockState.incN]
      exact ih s.increment

theorem ClockState.incN_small (k : Nat) (s : ClockState) (h : s.minute + k ≤ 59) :
    ClockState.incN k s = { s with minute := s.minute + k } := by
  induction k generalizing s with
  | zero => simp [ClockState.incN]
  | succ k ih =>
      simp only [ClockState.incN]
      have hm : ¬ s.minute = 59 := by omega
      rw [ClockState.increment, if_neg hm]
      rw [ih _ (by simp; omega)]
      simp
      omega


theorem ClockState.increment_mk (a b : Int) :
    ClockState.increment ⟨a, b⟩
      = if b = 59 then (if a < 23 then ⟨a + 1, 0⟩ else ⟨0, 0⟩) else ⟨a, b + 1⟩ := rfl

theorem ClockState.decrement_mk (a b : Int) :
    ClockState.decrement ⟨a, b⟩
      = if b = 0 then (if a > 0 then ⟨a - 1, 59⟩ else ⟨23, 59⟩) else ⟨a, b - 1⟩ := rfl

/-- C8: for every ConfigClock state with hour in [0,23] and minute in
    [0,59], applying increment() 60 times yields hour+1 (mod 24, so 23
    rolls to 0) with the minute unchanged, and decrement() undoes
    increment() on every such state. -/
theorem claim_C8_clock_arithmetic : ∀ (h m : Nat), h ≤ 23 → m ≤ 59 →
    ClockState.incN 60 ⟨(h : Int), (m : Int)⟩
      = ⟨(((h + 1) % 24 : Nat) : Int), (m : Int)⟩ ∧
    ClockState.decrement (ClockState.increment ⟨(h : Int), (m : Int)⟩)
      = ⟨(h : Int), (m : Int)⟩ := by
  intro h m hh hm
  constructor
  · have h60 : (60 : Nat) = (59 - m) + (m + 1) := by omega
    rw [h60, ClockState.incN_add]
    have hs : ClockState.incN (59 - m) ⟨(h : Int), (m : Int)⟩ = ⟨(h : Int), 59⟩ := by
      rw [ClockState.incN_small _ _ (by show (m : Int) + ((59 - m : Nat) : Int) ≤ 59; omega)]
      simp only [ClockState.mk.injEq, true_and]
      show (m : Int) + ((59 - m : Nat) : Int) = 59
      omega
    rw [hs]
    simp only [ClockState.incN]
    rw [ClockState.increment_mk, if_pos rfl]
    by_cases hc : h < 23
    · rw [if_pos (show (h : Int) < 23 by omega)]
      rw [ClockState.incN_small _ _ (by show (0 : Int) + (m : Int) ≤ 59; omega)]
      simp only [ClockState.mk.injEq]
      constructor
      · omega
      · show (0 : Int) + (m : Int) = (m : Int)
        omega
    · rw [if_neg (show ¬ ((h : Int) < 23) by omega)]
      rw [ClockState.incN_small _ _ (by show (0 : Int) + (m : Int) ≤ 59; omega)]
      simp only [ClockState.mk.injEq]
      constructor
      · omega
      · show (0 : Int) + (m : Int) = (m : Int)
        omega
  · rw [ClockState.increment_mk]
    by_cases hm59 : (m : Int) = 59
    · rw [if_pos hm59]
      by_cases hc : h < 23
      · rw [if_pos (show (h : Int) < 23 by omega)]
        rw [ClockState.decrement_mk, if_pos rfl]
        rw [if_pos (show (h : Int) + 1 > 0 by omega)]
        simp only [ClockState.mk.injEq]
        omega
      · rw [if_neg (show ¬ ((h : Int) < 23) by omega)]
        rw [ClockState.decrement_mk, if_pos rfl]
        rw [if_neg (show ¬ ((0 : Int) > 0) by omega)]
        simp only [ClockState.mk.injEq]
        omega
    · rw [if_neg hm59]
      rw [ClockState.decrement_mk]
      rw [if_neg (show ¬ ((m : Int) + 1 = 0) by omega)]
      simp only [ClockState.mk.injEq, true_and]
      omega

/-- Witness for C8 at the rollover state hour 23, minute 59. -/
theorem claim_C8_clock_arithmetic_witness :
    ((23 : Nat) ≤ 23 ∧ (59 : Nat) ≤ 59) ∧
    (ClockState.incN 60 ⟨((23 : Nat) : Int), ((59 : Nat) : Int)⟩
        = ⟨((((23 : Nat) + 1) % 24 : Nat) : Int), ((59 : Nat) : Int)⟩ ∧
     ClockState.decrement (ClockState.increment ⟨((23 : Nat) : Int), ((59 : Nat) : Int)⟩)
        = ⟨((23 : Nat) : Int), ((59 : Nat) : Int)⟩) :=
  ⟨⟨by decide, by decide⟩, claim_C8_clock_arithmetic 23 59 (by decide) (by decide)⟩

/-- C7: a ConfigIP with auto_jump enabled, value 0.0.0.0, marked block 0 in
    overwrite mode, fed the digits 2, 5, 6 (action keys 14, 17, 18), ends
    with the first field clamped to 25, the marked block on the second
    field and the second field holding 6. -/
theorem claim_C7_ip_auto_jump :
    (let s0 : IPState :=
       { value := [0, 0, 0, 0], marked_pos := 0, marked_block := 0,
         overwrite := true, auto_jump := true }
     let s3 := ConfigIP.handleKey 0 18 (ConfigIP.handleKey 0 17 (ConfigIP.handleKey 0 14 s0))
     s3.value = [25, 6, 0, 0] ∧ s3.marked_block = 1) := by decide

/-- C10: a ConfigSelection with fewer than two choice entries ignores every
    action key: the state (value, choices, hence index) is unchanged and no
    notifier fires. -/
theorem claim_C10_selection_no_op (s : Selection) (key : Nat)
    (h : s.choices.length ≤ 1) :
    Selection.handleKey s key = some (s, false) := by
  have hn : choicesListLen s.choices = 1 := by
    unfold choicesListLen
    split_ifs with h0
    · rfl
    · omega
  simp [Selection.handleKey, hn]

/-- Witness for C10: a single-choice selection ignores ACTIONKEY_RIGHT. -/
theorem claim_C10_selection_no_op_witness :
    ([PyVal.str "a"] : List PyVal).length ≤ 1 ∧
    Selection.handleKey { choices := [PyVal.str "a"], default := .str "a", curValue := .str "a" } 1
      = some ({ choices := [PyVal.str "a"], default := .str "a", curValue := .str "a" }, false) :=
  ⟨by decide,
   claim_C10_selection_no_op
     { choices := [PyVal.str "a"], default := .str "a", curValue := .str "a" } 1 (by decide)⟩

/-- C5 (bug evidence): on Python 3, ConfigSelection([1, 2]).setValue("1")
    hits the first branch (str("1") is among the stringified choices, as the
    second conjunct shows) and then raises ValueError inside
    choicesList.index, instead of adopting the canonical choice 1 as the
    comment block at config.py lines 714-741 promises. -/
theorem claim_C5_setvalue_raises :
    Selection.setValue
        { choices := [.int 1, .int 2], default := .int 1, curValue := .int 1 } (.str "1")
      = none ∧
    ((choicesListValues [PyVal.int 1, PyVal.int 2]).map PyVal.pyStrOf).contains
      (PyVal.pyStrOf (.str "1")) = true := by decide


theorem strEntriesInduction {motive : StrEntries → Prop} (h0 : motive .nil)
    (h1 : ∀ k v rest, motive rest → motive (.cons k v rest)) : ∀ l, motive l
  | .nil => h0
  | .cons k v rest => h1 k v rest (strEntriesInduction h0 h1 rest)

theorem nodeEntriesInduction {motive : NodeEntries → Prop} (h0 : motive .nil)
    (h1 : ∀ k v rest, motive rest → motive (.cons k v rest)) : ∀ l, motive l
  | .nil => h0
  | .cons k v rest => h1 k v rest (nodeEntriesInduction h0 h1 rest)

theorem StrEntries.lookup_aset_self (l : StrEntries) (k : String) (v : StrTree) :
    (l.aset k v).lookup k = some v := by
  induction l using strEntriesInduction with
  | h0 => simp [StrEntries.aset, StrEntries.lookup]
  | h1 a b rest ih =>
      by_cases h : a = k
      · simp [StrEntries.aset, StrEntries.lookup, h]
      · simp [StrEntries.aset, StrEntries.lookup, h, ih]

theorem StrEntries.lookup_aset_ne (l : StrEntries) (k k2 : String) (v : StrTree)
    (h : k ≠ k2) : (l.aset k v).lookup k2 = l.lookup k2 := by
  induction l using strEntriesInduction with
  | h0 => simp [StrEntries.aset, StrEntries.lookup, h]
  | h1 a b rest ih =>
      by_cases ha : a = k
      · subst ha
        simp [StrEntries.aset, StrEntries.lookup, h]
      · simp [StrEntries.aset, StrEntries.lookup, ha, ih]

theorem StrEntries.lookup_adel_self (l : StrEntries) (k : String) :
    (l.adel k).lookup k = none := by
  induction l using strEntriesInduction with
  | h0 => simp [StrEntries.adel, StrEntries.lookup]
  | h1 a b rest ih =>
      by_cases h : a = k
      · simp [StrEntries.adel, h, ih]
      · simp [StrEntries.adel, StrEntries.lookup, h, ih]

theorem StrEntries.lookup_adel_ne (l : StrEntries) (k k2 : String) (h : k ≠ k2) :
    (l.adel k).lookup k2 = l.lookup k2 := by
  induction l using strEntriesInduction with
  | h0 => simp [StrEntries.adel, StrEntries.lookup]
  | h1 a b rest ih =>
      by_cases ha : a = k
      · subst ha
        simp [StrEntries.adel, StrEntries.lookup, h, ih]
      · simp [StrEntries.adel, StrEntries.lookup, ha, ih]

theorem mergeItems_append (stored : StrEntries) (a b : NodeEntries) :
    mergeItems stored (a.append b) = mergeItems (mergeItems stored a) b := by
  induction a using nodeEntriesInduction generalizing stored with
  | h0 => rfl
  | h1 k v rest ih =>
      simp only [NodeEntries.append, mergeItems]
      cases ConfigNode.savedValueOpt v with
      | some sv => exact ih (stored.aset k sv)
      | none => exact ih (stored.adel k)

theorem lookup_mergeItems_not_mem (stored : StrEntries) (items : NodeEntries) (key : String)
    (h : key ∉ items.keys) :
    (mergeItems stored items).lookup key = stored.lookup key := by
  induction items using nodeEntriesInduction generalizing stored with
  | h0 => rfl
  | h1 k v rest ih =>
      simp only [NodeEntries.keys, List.mem_cons] at h
      push_neg at h
      simp only [mergeItems]
      cases ConfigNode.savedValueOpt v with
      | some sv =>
          rw [ih _ h.2, StrEntries.lookup_aset_ne _ _ _ _ (fun hk => h.1 hk.symm)]
      | none =>
          rw [ih _ h.2, StrEntries.lookup_adel_ne _ _ _ (fun hk => h.1 hk.symm)]

/-- C2: after save(), an element whose value equals its default and is not
    force-saved (or whose saving is disabled) has saved_value None and its
    key is absent from the containing subsection's snapshot (whatever stale
    cache entry existed); with save_forced set (and saving enabled) the
    saved form is present even when the value equals the default.  The
    third conjunct delivers the tree part: the snapshot entry under the
    element's key is exactly the element's saved_value. -/
theorem claim_C2_omission_law :
    (∀ (α : Type) [DecidableEq α] (e : Elem α),
       (e.save_disabled = true ∨ (e.value = e.default ∧ e.save_forced = false)) →
       (Elem.save e).saved_value = none) ∧
    (∀ (α : Type) [DecidableEq α] (e : Elem α),
       e.save_forced = true → e.save_disabled = false →
       (Elem.save e).saved_value = some (e.tostring e.value)) ∧
    (∀ (stored : StrEntries) (pre post : NodeEntries) (key : String) (sv : Option StrTree),
       key ∉ post.keys →
       (mergeItems stored (pre.append (.cons key (.element sv) post))).lookup key = sv) := by
  refine ⟨?_, ?_, ?_⟩
  · intro α _ e h
    simp only [Elem.save]
    rw [if_pos h]
  · intro α _ e hf hd
    simp [Elem.save, hf, hd]
  · intro stored pre post key sv hpost
    rw [mergeItems_append]
    cases sv with
    | none =>
        simp only [mergeItems, ConfigNode.savedValueOpt]
        rw [lookup_mergeItems_not_mem _ _ _ hpost, StrEntries.lookup_adel_self]
    | some v =>
        simp only [mergeItems, ConfigNode.savedValueOpt]
        rw [lookup_mergeItems_not_mem _ _ _ hpost, StrEntries.lookup_aset_self]

/-- Witness for C2: a boolean element at its default is dropped (also from a
    snapshot with a stale cache entry under its key), and a force-saved one
    is kept. -/
theorem claim_C2_omission_law_witness :
    ((false = true ∨ (true = true ∧ false = false)) ∧
     (Elem.save { value := true, default := true, saved_value := some "True",
                  save_disabled := false, save_forced := false,
                  tostring := pyStrBool,
                  fromstring := ConfigBoolean.fromstring }).saved_value = none) ∧
    ("k" ∉ (NodeEntries.nil).keys ∧
     (mergeItems (.cons "k" (.leaf "x") .nil)
        (NodeEntries.append .nil (.cons "k" (.element none) .nil))).lookup "k" = none) ∧
    (true = true ∧ false = false ∧
     (Elem.save { value := true, default := true, saved_value := none,
                  save_disabled := false, save_forced := true,
                  tostring := pyStrBool,
                  fromstring := ConfigBoolean.fromstring }).saved_value = some "True") := by
  refine ⟨⟨Or.inr ⟨rfl, rfl⟩, ?_⟩, ⟨?_, ?_⟩, rfl, rfl, ?_⟩
  · exact claim_C2_omission_law.1 Bool _ (Or.inr ⟨rfl, rfl⟩)
  · exact List.not_mem_nil "k"
  · exact claim_C2_omission_law.2.2 _ .nil .nil "k" none (List.not_mem_nil "k")
  · exact claim_C2_omission_law.2.1 Bool _ rfl rfl


/-- C9: attaching a child under a key for which the container's stored-value
    cache holds a value assigns that stored value to the child's saved_value
    and calls the child's load(), for each of the three container shapes
    (ordered list, keyed dict, named subsection); the child's value
    afterwards is the decoded stored value. -/
theorem claim_C9_late_binding :
    (∀ (α : Type) (c : SubList α) (item : Elem α) (v : String),
       listLookup c.stored_values (pyStrNat c.items.length) = some v →
       (c.append item).items = c.items ++ [Elem.load { item with saved_value := some v }] ∧
       (Elem.load { item with saved_value := some v }).value = item.fromstring v) ∧
    (∀ (α : Type) (c : SubDict α) (key : String) (item : Elem α) (v : String),
       listLookup c.stored_values key = some v →
       (c.setitem key item).items
         = listAset c.items key (Elem.load { item with saved_value := some v }) ∧
       (Elem.load { item with saved_value := some v }).value = item.fromstring v) ∧
    (∀ (α : Type) (c : SubsectionE α) (name : String) (child : Elem α) (v : String),
       listLookup c.stored_values name = some v →
       (c.setattr name child).items
         = listAset c.items name (Elem.load { child with saved_value := some v }) ∧
       (Elem.load { child with saved_value := some v }).value = child.fromstring v) := by
  refine ⟨?_, ?_, ?_⟩
  · intro α c item v h
    constructor
    · simp [SubList.append, h]
    · rfl
  · intro α c key item v h
    constructor
    · simp [SubDict.setitem, h]
    · rfl
  · intro α c name child v h
    constructor
    · simp [SubsectionE.setattr, h]
    · rfl

/-- Witness for C9 with a boolean child cached as "True" in each container
    shape. -/
theorem claim_C9_late_binding_witness :
    (listLookup [("0", "True")] (pyStrNat ([] : List (Elem Bool)).length) = some "True" ∧
     (SubList.append { items := [], stored_values := [("0", "True")] }
        { value := false, default := false, saved_value := none,
          save_disabled := false, save_forced := false,
          tostring := pyStrBool, fromstring := ConfigBoolean.fromstring }).items
       = [] ++ [Elem.load { value := false, default := false, saved_value := some "True",
                            save_disabled := false, save_forced := false,
                            tostring := pyStrBool, fromstring := ConfigBoolean.fromstring }] ∧
     (Elem.load { value := false, default := false, saved_value := some "True",
                  save_disabled := false, save_forced := false,
                  tostring := pyStrBool, fromstring := ConfigBoolean.fromstring }).value
       = ConfigBoolean.fromstring "True") :=
  ⟨rfl,
   (claim_C9_late_binding.1 Bool { items := [], stored_values := [("0", "True")] }
     { value := false, default := false, saved_value := none,
       save_disabled := false, save_forced := false,
       tostring := pyStrBool, fromstring := ConfigBoolean.fromstring } "True" rfl).1,
   (claim_C9_late_binding.1 Bool { items := [], stored_values := [("0", "True")] }
     { value := false, default := false, saved_value := none,
       save_disabled := false, save_forced := false,
       tostring := pyStrBool, fromstring := ConfigBoolean.fromstring } "True" rfl).2⟩


theorem charDigitVal_digitChar (d : Nat) (hd : d < 10) :
    charDigitVal (digitChar d) = some d := by
  interval_cases d <;> decide

theorem digitChar_isDigit (d : Nat) (hd : d < 10) : (digitChar d).isDigit = true := by
  interval_cases d <;> decide

theorem pySpace_digitChar (d : Nat) (hd : d < 10) : pySpace (digitChar d) = false := by
  interval_cases d <;> decide

theorem mapDigitVals_append (a b : List Char) (da db : List Nat)
    (ha : mapDigitVals a = some da) (hb : mapDigitVals b = some db) :
    mapDigitVals (a ++ b) = some (da ++ db) := by
  induction a generalizing da with
  | nil =>
      simp only [mapDigitVals] at ha
      cases ha
      simpa using hb
  | cons c rest ih =>
      rw [List.cons_append]
      simp only [mapDigitVals] at ha ⊢
      cases hc : charDigitVal c with
      | none => rw [hc] at ha; cases ha
      | some d =>
          rw [hc] at ha
          cases hr : mapDigitVals rest with
          | none => rw [hr] at ha; cases ha
          | some ds =>
              rw [hr] at ha
              cases ha
              rw [ih ds hr]
              rfl

theorem natDigitsAux_parse : ∀ (fuel n : Nat), n ≤ fuel →
    ∃ ds, mapDigitVals (natDigitsAux fuel n) = some ds ∧
      ds.foldl (fun a d => a * 10 + d) 0 = n ∧ (ds = [] ↔ n = 0) := by
  intro fuel
  induction fuel with
  | zero =>
      intro n hn
      have h0 : n = 0 := by omega
      subst h0
      exact ⟨[], rfl, rfl, by simp⟩
  | succ fuel ih =>
      intro n hn
      by_cases h0 : n = 0
      · subst h0
        exact ⟨[], by simp [natDigitsAux, mapDigitVals], rfl, by simp⟩
      · have hdiv : n / 10 ≤ fuel := by
          have := Nat.div_lt_self (Nat.pos_of_ne_zero h0) (by norm_num : 1 < 10)
          omega
        obtain ⟨ds, hmap, hfold, hemp⟩ := ih (n / 10) hdiv
        refine ⟨ds ++ [n % 10], ?_, ?_, ?_⟩
        · rw [natDigitsAux, if_neg h0]
          exact mapDigitVals_append _ _ _ _ hmap (by
            simp [mapDigitVals, charDigitVal_digitChar (n % 10) (Nat.mod_lt _ (by norm_num))])
        · rw [List.foldl_append, hfold]
          simp
          omega
        · simp [h0]

theorem parseNatChars_pyStrNat (n : Nat) : parseNatChars (pyStrNat n).data = some n := by
  by_cases h0 : n = 0
  · subst h0
    decide
  · obtain ⟨ds, hmap, hfold, hemp⟩ := natDigitsAux_parse n n (le_refl n)
    have hdata : (pyStrNat n).data = natDigitsAux n n := by rw [pyStrNat, if_neg h0]
    have hds : ds.isEmpty = false := by
      cases ds with
      | nil => exact absurd (hemp.mp rfl) h0
      | cons x xs => rfl
    simp only [parseNatChars, hdata, hmap, hds]
    rw [if_neg (by simp), hfold]

theorem natDigitsAux_chars : ∀ (fuel n : Nat) (c : Char), c ∈ natDigitsAux fuel n →
    ∃ d, d < 10 ∧ c = digitChar d := by
  intro fuel
  induction fuel with
  | zero => intro n c hc; simp [natDigitsAux] at hc
  | succ fuel ih =>
      intro n c hc
      rw [natDigitsAux] at hc
      by_cases h0 : n = 0
      · rw [if_pos h0] at hc; simp at hc
      · rw [if_neg h0] at hc
        rcases List.mem_append.mp hc with h | h
        · exact ih _ _ h
        · simp at h
          exact ⟨n % 10, Nat.mod_lt _ (by norm_num), h⟩

theorem pyStrNat_chars (n : Nat) (c : Char) (hc : c ∈ (pyStrNat n).data) :
    ∃ d, d < 10 ∧ c = digitChar d := by
  by_cases h0 : n = 0
  · subst h0
    have hd : (pyStrNat 0).data = ['0'] := rfl
    rw [hd] at hc
    simp at hc
    exact ⟨0, by norm_num, by rw [hc]; decide⟩
  · rw [pyStrNat, if_neg h0] at hc
    exact natDigitsAux_chars n n c hc

theorem pyStr_chars (i : Int) (c : Char) (hc : c ∈ (pyStr i).data) :
    c = '-' ∨ ∃ d, d < 10 ∧ c = digitChar d := by
  rw [pyStr] at hc
  by_cases hneg : i < 0
  · rw [if_pos hneg, String.data_append] at hc
    rcases List.mem_append.mp hc with h | h
    · left
      simpa using h
    · exact Or.inr (pyStrNat_chars _ c h)
  · rw [if_neg hneg] at hc
    exact Or.inr (pyStrNat_chars _ c hc)

theorem pyIntChars_pyStrNat (n : Nat) : pyIntChars (pyStrNat n).data = some (n : Int) := by
  by_cases h0 : n = 0
  · subst h0
    decide
  · cases hl : (pyStrNat n).data with
    | nil =>
        obtain ⟨ds, hmap, hfold, hemp⟩ := natDigitsAux_parse n n (le_refl n)
        have hdata : (pyStrNat n).data = natDigitsAux n n := by rw [pyStrNat, if_neg h0]
        rw [hdata] at hl
        rw [hl] at hmap
        simp only [mapDigitVals] at hmap
        cases hmap
        exact absurd (hemp.mp rfl) h0
    | cons c0 rest =>
        have hc0 : ∃ d, d < 10 ∧ c0 = digitChar d := by
          apply pyStrNat_chars n c0
          rw [hl]
          exact List.mem_cons_self c0 rest
        obtain ⟨d, hd, hcd⟩ := hc0
        have hne1 : c0 ≠ '-' := by subst hcd; interval_cases d <;> decide
        have hne2 : c0 ≠ '+' := by subst hcd; interval_cases d <;> decide
        have hp : parseNatChars (c0 :: rest) = some n := by
          rw [← hl]
          exact parseNatChars_pyStrNat n
        calc pyIntChars (c0 :: rest)
            = (parseNatChars (c0 :: rest)).map (fun m => (m : Int)) := by
                rw [show pyIntChars (c0 :: rest)
                    = if c0 = '-' then (parseNatChars rest).map (fun m => -(m : Int))
                      else if c0 = '+' then (parseNatChars rest).map (fun m => (m : Int))
                      else (parseNatChars (c0 :: rest)).map (fun m => (m : Int)) from rfl]
                rw [if_neg hne1, if_neg hne2]
          _ = some (n : Int) := by rw [hp]; rfl

theorem pyIntChars_pyStr (i : Int) : pyIntChars (pyStr i).data = some i := by
  by_cases hneg : i < 0
  · rw [pyStr, if_pos hneg]
    have hdata : (("-" : String) ++ pyStrNat i.natAbs).data
        = '-' :: (pyStrNat i.natAbs).data := by
      rw [String.data_append]
      rfl
    rw [hdata]
    rw [show pyIntChars ('-' :: (pyStrNat i.natAbs).data)
        = (parseNatChars (pyStrNat i.natAbs).data).map (fun m => -(m : Int)) from rfl]
    rw [parseNatChars_pyStrNat]
    show some (-((i.natAbs : Nat) : Int)) = some i
    congr 1
    omega
  · rw [pyStr, if_neg hneg]
    rw [pyIntChars_pyStrNat]
    congr 1
    omega

theorem splitOnChar_ne_nil (sep : Char) (l : List Char) : splitOnChar sep l ≠ [] := by
  cases l with
  | nil => simp [splitOnChar]
  | cons c rest =>
      simp only [splitOnChar]
      cases splitOnChar sep rest with
      | nil => simp
      | cons p ps =>
          by_cases h : c = sep <;> simp [h]

theorem splitOnChar_no_sep (sep : Char) (p : List Char) (h : sep ∉ p) :
    splitOnChar sep p = [p] := by
  induction p with
  | nil => rfl
  | cons c rest ih =>
      have hc : ¬ (c = sep) := by
        intro he
        exact h (he ▸ List.mem_cons_self c rest)
      have hr : sep ∉ rest := fun hm => h (List.mem_cons_of_mem c hm)
      simp only [splitOnChar, ih hr]
      simp [hc]

theorem splitOnChar_append (sep : Char) (p t : List Char) (h : sep ∉ p) :
    splitOnChar sep (p ++ sep :: t) = p :: splitOnChar sep t := by
  induction p with
  | nil =>
      simp only [List.nil_append, splitOnChar]
      cases hsp : splitOnChar sep t with
      | nil => exact absurd hsp (splitOnChar_ne_nil sep t)
      | cons q qs => simp
  | cons c rest ih =>
      have hc : ¬ (c = sep) := by
        intro he
        exact h (he ▸ List.mem_cons_self c rest)
      have hr : sep ∉ rest := fun hm => h (List.mem_cons_of_mem c hm)
      rw [List.cons_append]
      simp only [splitOnChar, ih hr]
      simp [hc]

theorem splitOnChar_joinChars (sep : Char) (parts : List (List Char))
    (hne : parts ≠ []) (h : ∀ p ∈ parts, sep ∉ p) :
    splitOnChar sep (joinChars sep parts) = parts := by
  induction parts with
  | nil => exact absurd rfl hne
  | cons p rest ih =>
      cases rest with
      | nil => exact splitOnChar_no_sep sep p (h p (List.mem_cons_self p []))
      | cons q qs =>
          rw [show joinChars sep (p :: q :: qs) = p ++ sep :: joinChars sep (q :: qs) from rfl]
          rw [splitOnChar_append sep p _ (h p (List.mem_cons_self p (q :: qs)))]
          rw [ih (by simp) (fun r hr => h r (List.mem_cons_of_mem p hr))]

theorem pyStripChars_eq_self (l : List Char) (h : ∀ c ∈ l, pySpace c = false) :
    pyStripChars l = l := by
  have h1 : l.dropWhile pySpace = l := by
    cases l with
    | nil => rfl
    | cons c rest =>
        rw [List.dropWhile_cons, if_neg (by simp [h c (List.mem_cons_self c rest)])]
  rw [pyStripChars, h1]
  have h2 : l.reverse.dropWhile pySpace = l.reverse := by
    cases hr : l.reverse with
    | nil => rfl
    | cons c rest =>
        rw [List.dropWhile_cons, if_neg ?_]
        have hc : c ∈ l := by
          rw [← List.mem_reverse, hr]
          exact List.mem_cons_self c rest
        simp [h c hc]
  rw [h2, List.reverse_reverse]

theorem pyStr_no_space (i : Int) (c : Char) (hc : c ∈ (pyStr i).data) :
    pySpace c = false := by
  rcases pyStr_chars i c hc with h | ⟨d, hd, hcd⟩
  · rw [h]
    decide
  · rw [hcd]
    exact pySpace_digitChar d hd

theorem intPieces_map_pyStr (v : List Int) :
    intPieces (v.map (fun x => (pyStr x).data)) = some v := by
  induction v with
  | nil => rfl
  | cons x rest ih =>
      simp only [List.map_cons, intPieces]
      rw [pyStripChars_eq_self _ (pyStr_no_space x), pyIntChars_pyStr, ih]

/-- C3: decoding the encoded form is the identity on reachable values:
    ConfigBoolean round-trips both booleans, and ConfigSequence round-trips
    every field list of the element's arity (which covers the default and
    every value reachable by editing) for every single-character separator
    that can occur in a rendered integer-free position (not a digit and not
    the minus sign; the variants use ".", ":" and ","). -/
theorem claim_C3_roundtrip :
    (∀ b : Bool, ConfigBoolean.fromstring (ConfigBoolean.tostring b) = b) ∧
    (∀ (sep : Char) (limits : List (Int × Int)) (v : List Int),
       sep.isDigit = false → sep ≠ '-' → v ≠ [] → limits.length ≤ v.length →
       ConfigSequence.fromstring sep limits (ConfigSequence.tostring sep v) = some v) := by
  constructor
  · decide
  · intro sep limits v hsd hdash hv hlen
    rw [ConfigSequence.fromstring, ConfigSequence.tostring]
    have hsplit : splitOnChar sep (joinChars sep (v.map fun x => (pyStr x).data))
        = v.map (fun x => (pyStr x).data) := by
      apply splitOnChar_joinChars
      · simp [hv]
      · intro p hp hsep
        obtain ⟨x, hx, hpx⟩ := List.mem_map.mp hp
        subst hpx
        rcases pyStr_chars x sep hsep with h | ⟨d, hd, hcd⟩
        · exact hdash h
        · rw [hcd] at hsd
          rw [digitChar_isDigit d hd] at hsd
          cases hsd
    rw [show (⟨joinChars sep (v.map fun x => (pyStr x).data)⟩ : String).data
        = joinChars sep (v.map fun x => (pyStr x).data) from rfl]
    rw [hsplit, intPieces_map_pyStr]
    show some (v ++ (limits.drop v.length).map (fun x => x.1)) = some v
    rw [List.drop_eq_nil_of_le hlen]
    simp

/-- Witness for C3: both booleans, and 0.0.0.0 over the IP limits. -/
theorem claim_C3_roundtrip_witness :
    (ConfigBoolean.fromstring (ConfigBoolean.tostring true) = true ∧
     ConfigBoolean.fromstring (ConfigBoolean.tostring false) = false) ∧
    (('.' : Char).isDigit = false ∧ ('.' : Char) ≠ '-' ∧
     ([0, 0, 0, 0] : List Int) ≠ [] ∧ ip_limits.length ≤ ([0, 0, 0, 0] : List Int).length ∧
     ConfigSequence.fromstring '.' ip_limits (ConfigSequence.tostring '.' [0, 0, 0, 0])
       = some [0, 0, 0, 0]) :=
  ⟨⟨claim_C3_roundtrip.1 true, claim_C3_roundtrip.1 false⟩,
   by decide, by decide, by decide, by decide,
   claim_C3_roundtrip.2 '.' ip_limits [0, 0, 0, 0]
     (by decide) (by decide) (by decide) (by decide)⟩


theorem ip_limits_wf : limitsWF ip_limits := by
  intro lim hlim
  simp only [ip_limits, List.mem_cons, List.not_mem_nil, or_false] at hlim
  rcases hlim with h | h | h | h <;> rw [h] <;> norm_num

theorem validateFields_inBounds (limits : List (Int × Int)) (value : List Int)
    (hwf : limitsWF limits) (hlen : value.length = limits.length) :
    inBounds limits (validateFields limits value) := by
  induction limits generalizing value with
  | nil =>
      cases value with
      | nil => exact List.Forall₂.nil
      | cons x xs => simp at hlen
  | cons lim ls ih =>
      cases value with
      | nil => simp at hlen
      | cons x xs =>
          rw [show validateFields (lim :: ls) (x :: xs)
              = clamp1 lim x :: validateFields ls xs from rfl]
          refine List.Forall₂.cons ?_
            (ih xs (fun l hl => hwf l (List.mem_cons_of_mem lim hl)) (by simpa using hlen))
          have hl := hwf lim (List.mem_cons_self lim ls)
          refine ⟨?_, ?_⟩ <;> (simp only [clamp1]; split_ifs <;> omega)

theorem digitOf_key (ascii : Int) (key : Nat) (n : Int) (h : digitOf ascii key = some n) :
    key = 8 ∨ (12 ≤ key ∧ key ≤ 21) := by
  rw [digitOf] at h
  by_cases h8 : key = ACTIONKEY_ASCII
  · exact Or.inl h8
  · rw [if_neg h8] at h
    by_cases hnum : isNumberKey key = true
    · right
      simpa [isNumberKey] using hnum
    · rw [if_neg (by simpa using hnum)] at h
      cases h

theorem validate_value (limits : List (Int × Int)) (q : SeqState) :
    (ConfigSequence.validate limits q).value = validateFields limits q.value := rfl

theorem moveRight_value (s : IPState) : (ConfigIP.moveRight s).value = s.value := rfl

theorem afterDigit_value (s : IPState) :
    (ConfigIP.afterDigit s).value = validateFields ip_limits s.value := by
  rw [ConfigIP.afterDigit]
  split_ifs <;> rfl

theorem digitOverwrite_value (s : IPState) (n : Int) :
    (ConfigIP.digitOverwrite s n).value
      = validateFields ip_limits (s.value.set s.marked_block n) := by
  rw [ConfigIP.digitOverwrite, afterDigit_value]

theorem seq_handleKey_digit_value (limits : List (Int × Int)) (ascii : Int) (key : Nat)
    (n : Int) (s : SeqState) (hdig : digitOf ascii key = some n) :
    ∃ bn nv, (ConfigSequence.handleKey limits ascii key s).value
      = validateFields limits (s.value.set bn nv) := by
  have hk := digitOf_key ascii key n hdig
  have h5 : ¬ (key = ACTIONKEY_FIRST) := by
    show ¬ (key = 5)
    rcases hk with h | h <;> omega
  have h0 : ¬ (key = ACTIONKEY_LEFT) := by
    show ¬ (key = 0)
    rcases hk with h | h <;> omega
  have h1 : ¬ (key = ACTIONKEY_RIGHT) := by
    show ¬ (key = 1)
    rcases hk with h | h <;> omega
  have h6 : ¬ (key = ACTIONKEY_LAST) := by
    show ¬ (key = 6)
    rcases hk with h | h <;> omega
  have hcond : isNumberKey key = true ∨ key = ACTIONKEY_ASCII := by
    rcases hk with h | h
    · exact Or.inr h
    · left
      simp [isNumberKey]
      omega
  rw [ConfigSequence.handleKey, if_neg h5, if_neg h0, if_neg h1, if_neg h6,
      if_pos hcond, hdig]
  exact ⟨_, _, rfl⟩

theorem ip_handleKey_digit (ascii : Int) (key : Nat) (n : Int) (s : IPState)
    (hdig : digitOf ascii key = some n) :
    ConfigIP.handleKey ascii key s
      = if s.overwrite then ConfigIP.digitOverwrite s n
        else
          if s.auto_jump = true
              ∧ s.value.getD s.marked_block 0 * 10 + n > (ip_limits.getD s.marked_block (0, 0)).2
              ∧ s.marked_block < ip_limits.length - 1 then
            ConfigIP.digitOverwrite (ConfigIP.moveRight s) n
          else ConfigIP.afterDigit
            { s with value := s.value.set s.marked_block (s.value.getD s.marked_block 0 * 10 + n) } := by
  have hk := digitOf_key ascii key n hdig
  have h5 : ¬ (key = ACTIONKEY_FIRST) := by
    show ¬ (key = 5)
    rcases hk with h | h <;> omega
  have h0 : ¬ (key = ACTIONKEY_LEFT) := by
    show ¬ (key = 0)
    rcases hk with h | h <;> omega
  have h1 : ¬ (key = ACTIONKEY_RIGHT) := by
    show ¬ (key = 1)
    rcases hk with h | h <;> omega
  have h6 : ¬ (key = ACTIONKEY_LAST) := by
    show ¬ (key = 6)
    rcases hk with h | h <;> omega
  have hcond : isNumberKey key = true ∨ key = ACTIONKEY_ASCII := by
    rcases hk with h | h
    · exact Or.inr h
    · left
      simp [isNumberKey]
      omega
  rw [ConfigIP.handleKey, if_neg h0, if_neg h1, if_neg h5, if_neg h6, if_pos hcond, hdig]

/-- C6: for every ConfigSequence over its limits list (and for the ConfigIP
    variant with its per-block editing, auto-jump included), every
    digit-entry action leaves every field of the value inside its declared
    [min, max] bound, because validate() runs after every mutation; cursor
    actions do not touch the value at all, so any finite action sequence
    ending in digit entry is clamped.  The final conjunct is the concrete
    scenario: an IP field fed 9, 9, 9 with overwrite off ends at 255. -/
theorem claim_C6_field_clamping :
    (∀ (limits : List (Int × Int)) (ascii : Int) (key : Nat) (n : Int) (s : SeqState),
       digitOf ascii key = some n → limitsWF limits → s.value.length = limits.length →
       inBounds limits (ConfigSequence.handleKey limits ascii key s).value) ∧
    (∀ (ascii : Int) (key : Nat) (n : Int) (s : IPState),
       digitOf ascii key = some n → s.value.length = 4 →
       inBounds ip_limits (ConfigIP.handleKey ascii key s).value) ∧
    (let s0 : IPState := { value := [0, 0, 0, 0], marked_pos := 0, marked_block := 0,
                           overwrite := false, auto_jump := false }
     (ConfigIP.handleKey 0 21 (ConfigIP.handleKey 0 21 (ConfigIP.handleKey 0 21 s0))).value
       = [255, 0, 0, 0]) := by
  refine ⟨?_, ?_, by decide⟩
  · intro limits ascii key n s hdig hwf hlen
    obtain ⟨bn, nv, hv⟩ := seq_handleKey_digit_value limits ascii key n s hdig
    rw [hv]
    exact validateFields_inBounds _ _ hwf (by simpa using hlen)
  · intro ascii key n s hdig hlen
    have hwf := ip_limits_wf
    have hlen4 : ip_limits.length = 4 := by rfl
    rw [ip_handleKey_digit ascii key n s hdig]
    by_cases how : s.overwrite
    · rw [if_pos how, digitOverwrite_value]
      exact validateFields_inBounds _ _ hwf (by simp [hlen, hlen4])
    · rw [if_neg how]
      by_cases haj : s.auto_jump = true
          ∧ s.value.getD s.marked_block 0 * 10 + n > (ip_limits.getD s.marked_block (0, 0)).2
          ∧ s.marked_block < ip_limits.length - 1
      · rw [if_pos haj, digitOverwrite_value]
        exact validateFields_inBounds _ _ hwf (by simp [moveRight_value, hlen, hlen4])
      · rw [if_neg haj, afterDigit_value]
        exact validateFields_inBounds _ _ hwf (by simp [hlen, hlen4])

/-- Witness for C6: digit 9 pressed on a generic sequence field and on an
    IP block in overwrite mode ends in bounds. -/
theorem claim_C6_field_clamping_witness :
    (digitOf 0 21 = some 9 ∧ limitsWF ip_limits ∧
     ([999, 0, 0, 0] : List Int).length = ip_limits.length ∧
     inBounds ip_limits
       (ConfigSequence.handleKey ip_limits 0 21 { value := [999, 0, 0, 0], marked_pos := 0 }).value) ∧
    (([7, 0, 0, 0] : List Int).length = 4 ∧
     inBounds ip_limits
       (ConfigIP.handleKey 0 21
         { value := [7, 0, 0, 0], marked_pos := 0, marked_block := 0,
           overwrite := true, auto_jump := false }).value) :=
  ⟨⟨by decide, ip_limits_wf, by decide,
    claim_C6_field_clamping.1 ip_limits 0 21 9
      { value := [999, 0, 0, 0], marked_pos := 0 } (by decide) ip_limits_wf (by decide)⟩,
   by decide,
   claim_C6_field_clamping.2.1 0 21 9
     { value := [7, 0, 0, 0], marked_pos := 0, marked_block := 0,
       overwrite := true, auto_jump := false } (by decide) (by decide)⟩


theorem charToNatInj (a b : Char) (h : a.toNat = b.toNat) : a = b :=
  Char.ext (UInt32.ext h)

theorem pyCharsLt_cons (x y : Char) (xs ys : List Char) :
    pyCharsLt (x :: xs) (y :: ys)
      = if x.toNat < y.toNat then true
        else if y.toNat < x.toNat then false
        else pyCharsLt xs ys := rfl

theorem pyCharsLt_irrefl : ∀ l, pyCharsLt l l = false
  | [] => rfl
  | a :: as => by
      rw [pyCharsLt_cons, if_neg (by omega), if_neg (by omega)]
      exact pyCharsLt_irrefl as

theorem pyCharsLt_trans : ∀ (a b c : List Char), pyCharsLt a b = true →
    pyCharsLt b c = true → pyCharsLt a c = true := by
  intro a
  induction a with
  | nil =>
      intro b c hab hbc
      cases b with
      | nil => exact absurd hab (by simp [pyCharsLt])
      | cons y ys =>
          cases c with
          | nil => exact absurd hbc (by simp [pyCharsLt])
          | cons z zs => rfl
  | cons x xs ih =>
      intro b c hab hbc
      cases b with
      | nil => exact absurd hab (by simp [pyCharsLt])
      | cons y ys =>
          cases c with
          | nil => exact absurd hbc (by simp [pyCharsLt])
          | cons z zs =>
              rw [pyCharsLt_cons] at hab hbc ⊢
              split_ifs at hab hbc ⊢ <;>
                first
                | rfl
                | omega
                | (exact ih ys zs hab hbc)

theorem pyCharsLt_total : ∀ (a b : List Char),
    pyCharsLt a b = true ∨ pyCharsLt b a = true ∨ a = b := by
  intro a
  induction a with
  | nil =>
      intro b
      cases b with
      | nil => exact Or.inr (Or.inr rfl)
      | cons y ys => exact Or.inl rfl
  | cons x xs ih =>
      intro b
      cases b with
      | nil => exact Or.inr (Or.inl rfl)
      | cons y ys =>
          by_cases h1 : x.toNat < y.toNat
          · left
            rw [pyCharsLt_cons, if_pos h1]
          · by_cases h2 : y.toNat < x.toNat
            · right
              left
              rw [pyCharsLt_cons, if_pos h2]
            · have hxy : x = y := charToNatInj _ _ (by omega)
              subst hxy
              rcases ih ys with h | h | h
              · left
                rw [pyCharsLt_cons, if_neg (by omega), if_neg (by omega)]
                exact h
              · right
                left
                rw [pyCharsLt_cons, if_neg (by omega), if_neg (by omega)]
                exact h
              · subst h
                exact Or.inr (Or.inr rfl)

theorem pyCharsLt_asymm (a b : List Char) (h : pyCharsLt a b = true) :
    pyCharsLt b a = false := by
  by_contra h2
  have h3 : pyCharsLt b a = true := by
    cases hv : pyCharsLt b a
    · exact absurd hv h2
    · rfl
  have := pyCharsLt_trans a b a h h3
  rw [pyCharsLt_irrefl] at this
  cases this

theorem pyLeChars_total (a b : List Char) :
    pyLeChars a b = true ∨ pyLeChars b a = true := by
  rcases pyCharsLt_total a b with h | h | h
  · left
    rw [pyLeChars, pyCharsLt_asymm a b h]
    rfl
  · right
    rw [pyLeChars, pyCharsLt_asymm b a h]
    rfl
  · subst h
    left
    rw [pyLeChars, pyCharsLt_irrefl]
    rfl

theorem pyLeChars_trans (a b c : List Char) (hab : pyLeChars a b = true)
    (hbc : pyLeChars b c = true) : pyLeChars a c = true := by
  rw [pyLeChars] at hab hbc ⊢
  have hba : pyCharsLt b a = false := by
    cases hv : pyCharsLt b a
    · rfl
    · rw [hv] at hab
      cases hab
  have hcb : pyCharsLt c b = false := by
    cases hv : pyCharsLt c b
    · rfl
    · rw [hv] at hbc
      cases hbc
  have hres : pyCharsLt c a = false := by
    rcases pyCharsLt_total c a with h | h | h
    · exfalso
      rcases pyCharsLt_total c b with h2 | h2 | h2
      · rw [h2] at hcb
        cases hcb
      · have h3 := pyCharsLt_trans b c a h2 h
        rw [h3] at hba
        cases hba
      · subst h2
        rw [h] at hba
        cases hba
    · exact pyCharsLt_asymm a c h
    · subst h
      exact pyCharsLt_irrefl _
  rw [hres]
  rfl

theorem entryLe_total (x y : String × String) :
    entryLe x y = true ∨ entryLe y x = true := pyLeChars_total _ _

theorem entryLe_trans (x y z : String × String) (h1 : entryLe x y = true)
    (h2 : entryLe y z = true) : entryLe x z = true := pyLeChars_trans _ _ _ h1 h2

theorem sortInsert_perm (x : String × String) (l : List (String × String)) :
    List.Perm (sortInsert x l) (x :: l) := by
  induction l with
  | nil => exact List.Perm.refl _
  | cons y ys ih =>
      rw [sortInsert]
      by_cases h : entryLe y x = true
      · rw [if_pos h]
        exact (ih.cons y).trans (List.Perm.swap x y ys)
      · rw [if_neg h]

theorem sortInsert_sorted (x : String × String) (l : List (String × String))
    (h : List.Pairwise (fun a b => entryLe a b = true) l) :
    List.Pairwise (fun a b => entryLe a b = true) (sortInsert x l) := by
  induction l with
  | nil => simp [sortInsert]
  | cons y ys ih =>
      rw [sortInsert]
      rcases List.pairwise_cons.mp h with ⟨hy, hys⟩
      by_cases hle : entryLe y x = true
      · rw [if_pos hle]
        refine List.pairwise_cons.mpr ⟨?_, ih hys⟩
        intro z hz
        rcases List.mem_cons.mp ((sortInsert_perm x ys).mem_iff.mp hz) with hz1 | hz2
        · rw [hz1]
          exact hle
        · exact hy z hz2
      · rw [if_neg hle]
        have hxy : entryLe x y = true := by
          rcases entryLe_total x y with h1 | h1
          · exact h1
          · exact absurd h1 hle
        refine List.pairwise_cons.mpr ⟨?_, h⟩
        intro z hz
        rcases List.mem_cons.mp hz with hz1 | hz2
        · rw [hz1]
          exact hxy
        · exact entryLe_trans x y z hxy (hy z hz2)

theorem sortPairs_perm (l : List (String × String)) : List.Perm (sortPairs l) l := by
  have key : ∀ (l acc : List (String × String)),
      List.Perm (l.foldl (fun acc x => sortInsert x acc) acc) (acc ++ l) := by
    intro l
    induction l with
    | nil => intro acc; simp
    | cons x xs ih =>
        intro acc
        rw [List.foldl_cons]
        refine (ih (sortInsert x acc)).trans ?_
        refine (((sortInsert_perm x acc).append_right xs).trans ?_)
        exact List.perm_middle.symm
  simpa using key l []

theorem sortPairs_sorted (l : List (String × String)) :
    List.Pairwise (fun a b => entryLe a b = true) (sortPairs l) := by
  have key : ∀ (l acc : List (String × String)),
      List.Pairwise (fun a b => entryLe a b = true) acc →
      List.Pairwise (fun a b => entryLe a b = true)
        (l.foldl (fun acc x => sortInsert x acc) acc) := by
    intro l
    induction l with
    | nil => intro acc h; simpa using h
    | cons x xs ih =>
        intro acc h
        rw [List.foldl_cons]
        exact ih _ (sortInsert_sorted x acc h)
  exact key l [] (by simp)

theorem renderEntries_keys (pfx : String) : ∀ (entries : StrEntries),
    (renderEntries pfx entries).map Prod.fst = entries.keys
  | .nil => rfl
  | .cons k v rest => by
      rw [show renderEntries pfx (.cons k v rest)
          = (k, pickleOne pfx k v) :: renderEntries pfx rest from rfl]
      rw [List.map_cons, renderEntries_keys pfx rest]
      rfl

/-- C4 counterexample: on the level {"2": "b", "10": "a"} the code emits the
    key "10" before the key "2" (digit-only keys are compared as raw
    strings, not numerically), while the claim predicts "2" first. -/
theorem claim_C4_counterexample :
    pickle_this "config" (.cons "2" (.leaf "b") (.cons "10" (.leaf "a") .nil))
      = "config.10=a\nconfig.2=b\n" ∧
    "config.10=a\nconfig.2=b\n" ≠ "config.2=b\nconfig.10=a\n" := by decide

/-- C4 amended: every level of Config.pickle output is the rendered entries
    reordered into a stable sort by the source's key function - the raw key
    string when the key is all digits (so "10" sorts before "2",
    lexicographically by code point), the lowercased key otherwise - and
    the rendered pairs carry exactly that level's keys. -/
theorem claim_C4_sorted_levels :
    ∀ (pfx : String) (entries : StrEntries),
      pickle_this pfx entries = joinPairs (sortPairs (renderEntries pfx entries)) ∧
      List.Perm (sortPairs (renderEntries pfx entries)) (renderEntries pfx entries) ∧
      List.Pairwise (fun a b => entryLe a b = true)
        (sortPairs (renderEntries pfx entries)) ∧
      (renderEntries pfx entries).map Prod.fst = entries.keys := by
  intro pfx entries
  exact ⟨rfl, sortPairs_perm _, sortPairs_sorted _, renderEntries_keys pfx entries⟩


theorem splitFirstEq_append : ∀ (a b : List Char), ('=' : Char) ∉ a →
    splitFirstEq (a ++ '=' :: b) = some (a, b)
  | [], b, _ => by simp [splitFirstEq]
  | c :: rest, b, h => by
      have hc : ¬ (c = '=') := fun he => h (he ▸ List.mem_cons_self c rest)
      have hr : ('=' : Char) ∉ rest := fun hm => h (List.mem_cons_of_mem c hm)
      rw [List.cons_append]
      rw [show splitFirstEq (c :: (rest ++ '=' :: b))
          = if c = '=' then some ([], rest ++ '=' :: b)
            else (splitFirstEq (rest ++ '=' :: b)).map (fun p => (c :: p.1, p.2)) from rfl]
      rw [if_neg hc, splitFirstEq_append rest b hr]
      rfl

theorem unpickleLine_misc (k v : String) (hk1 : ('.' : Char) ∉ k.data)
    (hk2 : ('=' : Char) ∉ k.data) (hv : pyStrip v = v) :
    unpickleLine .nil ("config.misc." ++ k ++ "=" ++ v)
      = some (.cons "misc" (.node (.cons k (.leaf v) .nil)) .nil) := by
  have hdata : ("config.misc." ++ k ++ "=" ++ v).data
      = ("config.misc.".data ++ k.data) ++ '=' :: v.data := by
    simp [String.data_append]
  have hsfe : splitFirstEq (("config.misc.".data ++ k.data) ++ '=' :: v.data)
      = some ("config.misc.".data ++ k.data, v.data) := by
    apply splitFirstEq_append
    intro hmem
    rcases List.mem_append.mp hmem with h | h
    · revert h
      decide
    · exact hk2 h
  have hshape : "config.misc.".data ++ k.data
      = "config".data ++ '.' :: ("misc".data ++ '.' :: k.data) := rfl
  have hsplit : splitOnChar '.' ("config.misc.".data ++ k.data)
      = ["config".data, "misc".data, k.data] := by
    rw [hshape]
    rw [splitOnChar_append '.' "config".data _ (by decide)]
    rw [splitOnChar_append '.' "misc".data _ (by decide)]
    rw [splitOnChar_no_sep '.' k.data hk1]
  have hcond : ((("config.misc." ++ k ++ "=" ++ v : String) = "")
      || (("config.misc." ++ k ++ "=" ++ v : String).data.head? == some '#')) = false := rfl
  simp only [unpickleLine, hcond, Bool.false_eq_true, if_false, hdata, hsfe, hsplit]
  simp only [List.map_cons, List.map_nil]
  rw [show ((⟨v.data⟩ : String)) = v from rfl]
  rw [hv]
  rfl

/-- C1: a dotted key stored by Config.unpickle under the attached misc
    subsection, whose last component does not resolve to any attached
    element, is emitted verbatim as the same key=value line by the next
    Config.pickle: the stored-value cache carries it through the full
    save/load cycle.  The key may be any string without "." or "=", the
    value any string that strip() leaves unchanged. -/
theorem claim_C1_unknown_key_persists (k v : String) (hk1 : ('.' : Char) ∉ k.data)
    (hk2 : ('=' : Char) ∉ k.data) (hv : pyStrip v = v) :
    (Config.unpickle configRoot ["config.misc." ++ k ++ "=" ++ v]).map Config.pickle
      = some ("config.misc." ++ k ++ "=" ++ v ++ "\n") := by
  have hline := unpickleLine_misc k v hk1 hk2 hv
  rw [Config.unpickle]
  rw [show List.foldlM unpickleLine StrEntries.nil ["config.misc." ++ k ++ "=" ++ v]
      = (unpickleLine StrEntries.nil ("config.misc." ++ k ++ "=" ++ v)).bind
          (fun b => List.foldlM unpickleLine b []) from rfl]
  rw [hline]
  rfl

/-- Witness for C1: the spec's own scenario config.misc.foo=bar. -/
theorem claim_C1_unknown_key_persists_witness :
    (('.' : Char) ∉ ("foo" : String).data ∧ ('=' : Char) ∉ ("foo" : String).data ∧
     pyStrip "bar" = "bar") ∧
    (Config.unpickle configRoot ["config.misc.foo=bar"]).map Config.pickle
      = some "config.misc.foo=bar\n" :=
  ⟨⟨by decide, by decide, by decide⟩,
   claim_C1_unknown_key_persists "foo" "bar" (by decide) (by decide) (by decide)⟩

end ConfigSpec
